import Mathlib

/-!
# Concurrent traffic simulation: message queue and traffic light

A shallow embedding of `src/TrafficLight.cpp`.

* `MessageQueue<T>` is a record holding the container `_queue`.  The mutex and the
  condition variable only serialise the critical sections, so each call of `send` and each
  evaluation of the wait predicate followed by the removal in `receive` is one atomic
  step on the container.
* A call that cannot complete in the current state (the wait predicate of `receive` is
  false) is reported as `blocked`: without a later `send` the caller never returns.
* `back()` and `pop_back()` have no defined result on an empty container; the embedding
  makes them partial and lets `receive` report `undefined` if it ever reached them on an
  empty container.
* Loops are run for a number of iterations given as fuel.
* Clock readings and random draws are inputs of the updater loop; bounds on elapsed time
  are stated for the stop watch of the loop, under explicit hypotheses on the draws and on
  how often the loop polls the clock.
* Concurrent callers of one queue are a transition system whose steps are the critical
  sections; an interleaving is a list of steps.
-/

namespace TrafficSim

/-! ## The container operations used by the queue -/

/-- The element `back()` refers to; there is none on an empty container. -/
def back {T : Type} (v : List T) : Option T :=
  v.getLast?

/-- The container after `pop_back()`; not defined on an empty container. -/
def pop_back {T : Type} (v : List T) : Option (List T) :=
  match v with
  | [] => none
  | _ :: _ => some v.dropLast

/-- The container after `push_back(x)`. -/
def push_back {T : Type} (v : List T) (x : T) : List T :=
  v ++ [x]

/-! ## MessageQueue -/

/-- The data of `MessageQueue<T>`: the container `_queue`, oldest element first. -/
structure MessageQueue (T : Type) where
  _queue : List T
deriving DecidableEq, Repr

/-- Outcome of one call of `receive`. -/
inductive Received (T : Type) where
  /-- The wait predicate `!_queue.empty()` is false: the caller stays suspended and the
  queue, which the call has not touched, is `q`. -/
  | blocked (q : MessageQueue T) : Received T
  /-- The call reached `back()` or `pop_back()` on an empty container. -/
  | undefined : Received T
  /-- The call returns `msg` and leaves the queue `q`. -/
  | returned (msg : T) (q : MessageQueue T) : Received T
deriving DecidableEq, Repr

/-- The body of `MessageQueue<T>::receive`: wait until `_queue` is not empty, then move
the last element out and remove it. -/
def MessageQueue.receive {T : Type} (q : MessageQueue T) : Received T :=
  if q._queue.isEmpty then
    Received.blocked q
  else
    match back q._queue, pop_back q._queue with
    | some msg, some rest => Received.returned msg ⟨rest⟩
    | _, _ => Received.undefined

/-- The body of `MessageQueue<T>::send`: append the message to `_queue`.  The call has no
failure path; the notification has no effect on the container. -/
def MessageQueue.send {T : Type} (q : MessageQueue T) (msg : T) : MessageQueue T :=
  ⟨push_back q._queue msg⟩

/-- A client performing `send` once for each element of `msgs`, in order. -/
def sendAll {T : Type} (q : MessageQueue T) (msgs : List T) : MessageQueue T :=
  msgs.foldl MessageQueue.send q

/-- A client performing `n` calls of `receive` one after the other: the values in the
order they were returned and the final queue, or `none` as soon as one call does not
return. -/
def receiveN {T : Type} : Nat → MessageQueue T → Option (List T × MessageQueue T)
  | 0, q => some ([], q)
  | n + 1, q =>
    match q.receive with
    | Received.returned msg q1 =>
      match receiveN n q1 with
      | some (msgs, q2) => some (msg :: msgs, q2)
      | none => none
    | _ => none


/-! ## TrafficLight -/

/-- Modelled from the spec: the enumeration `TrafficLightPhase` is declared in
`TrafficLight.h`, which is not among the sources; the spec gives it the two values red and
green, the two enumerators `TrafficLight.cpp` uses. -/
inductive TrafficLightPhase where
  | red
  | green
deriving DecidableEq, Repr

/-- The data of a `TrafficLight` that `TrafficLight.cpp` reads and writes: the phase
`_currentPhase` and the queue `_messageQueue`. -/
structure TrafficLight where
  _currentPhase : TrafficLightPhase
  _messageQueue : MessageQueue TrafficLightPhase
deriving DecidableEq, Repr

/-- The constructor `TrafficLight::TrafficLight`: the phase is set to red; the queue member
is default-constructed, hence empty. -/
def TrafficLight.new : TrafficLight :=
  { _currentPhase := TrafficLightPhase.red, _messageQueue := ⟨[]⟩ }

/-- The method `TrafficLight::getCurrentPhase`: the returned phase and the light after
the call. -/
def TrafficLight.getCurrentPhase (tl : TrafficLight) : TrafficLightPhase × TrafficLight :=
  (tl._currentPhase, tl)

/-- Outcome of running the loop of `waitForGreen` for a bounded number of iterations. -/
inductive Waited where
  /-- The method returned; the light is left as given. -/
  | returned (tl : TrafficLight) : Waited
  /-- The method is suspended inside `receive` on an empty queue. -/
  | blocked (tl : TrafficLight) : Waited
  /-- A call of `receive` had no defined result. -/
  | undefined : Waited
  /-- The iterations allowed are used up and the loop is still running. -/
  | running (tl : TrafficLight) : Waited
deriving DecidableEq, Repr

/-- The method `TrafficLight::waitForGreen`, run for at most `fuel` iterations of its
loop: receive a phase, return if it is green, otherwise go round again. -/
def TrafficLight.waitForGreen : Nat → TrafficLight → Waited
  | 0, tl => Waited.running tl
  | fuel + 1, tl =>
    match tl._messageQueue.receive with
    | Received.blocked q => Waited.blocked { tl with _messageQueue := q }
    | Received.undefined => Waited.undefined
    | Received.returned light_phase q =>
      if light_phase = TrafficLightPhase.green then
        Waited.returned { tl with _messageQueue := q }
      else
        TrafficLight.waitForGreen fuel { tl with _messageQueue := q }

/-! ## The updater loop `cycleThroughPhases` -/

/-- The state of a running `cycleThroughPhases`: the light it works on and its two local
variables that live across iterations.  `cycle_duration` is a `double`; every finite
`double` is a rational number.  `last_update` is a reading of the system clock, counted in
ticks of that clock. -/
structure Updater where
  light : TrafficLight
  cycle_duration : ℚ
  last_update : Int
deriving DecidableEq

/-- What one iteration of the loop takes from its environment: the clock reading at the top
of the iteration, and (used only when the iteration toggles the light) the clock
reading that resets the stop watch and the next value of the random distribution. -/
structure Reading where
  now : Int
  now_reset : Int
  draw : ℚ
deriving DecidableEq

/-- The state of `cycleThroughPhases` on entry to its loop: the first draw of the
distribution and the first clock reading. -/
def Updater.start (tl : TrafficLight) (draw : ℚ) (now : Int) : Updater :=
  { light := tl, cycle_duration := draw, last_update := now }

/-- The value `time_since_last_update` gets in an iteration: the ticks elapsed, converted
to whole milliseconds by `duration_cast`, which rounds toward zero.  `ticksPerMs` is the
number of clock ticks in a millisecond, fixed by the platform. -/
def time_since_last_update (ticksPerMs : Int) (r : Reading) (u : Updater) : Int :=
  Int.tdiv (r.now - u.last_update) ticksPerMs

/-- The condition of the `if` in the loop: `time_since_last_update >= cycle_duration`.
The `long` is converted to `double` for the comparison, which is exact for every count of
milliseconds below `2 ^ 53`, so the comparison is the one of the rational numbers. -/
def fires (ticksPerMs : Int) (r : Reading) (u : Updater) : Bool :=
  decide (u.cycle_duration ≤ ((time_since_last_update ticksPerMs r u : Int) : ℚ))

/-- The two statements that change the light when the `if` is taken: toggle
`_currentPhase`, then send it to `_messageQueue`.  Moving from a value of the enumeration
leaves it as it is. -/
def TrafficLight.toggleAndSend (tl : TrafficLight) : TrafficLight :=
  let toggled : TrafficLightPhase :=
    if tl._currentPhase = TrafficLightPhase.red then TrafficLightPhase.green
    else TrafficLightPhase.red
  { _currentPhase := toggled, _messageQueue := tl._messageQueue.send toggled }

/-- One iteration of the loop of `cycleThroughPhases`. -/
def cycleIteration (ticksPerMs : Int) (r : Reading) (u : Updater) : Updater :=
  if fires ticksPerMs r u then
    { light := u.light.toggleAndSend, cycle_duration := r.draw, last_update := r.now_reset }
  else
    u

/-- The loop of `cycleThroughPhases` run for one iteration per reading, in order. -/
def cycleThroughPhases (ticksPerMs : Int) : List Reading → Updater → Updater
  | [], u => u
  | r :: rs, u => cycleThroughPhases ticksPerMs rs (cycleIteration ticksPerMs r u)

/-- The number of iterations of that run that toggled the light. -/
def transitions (ticksPerMs : Int) : List Reading → Updater → Nat
  | [], _ => 0
  | r :: rs, u =>
    (if fires ticksPerMs r u then 1 else 0) +
      transitions ticksPerMs rs (cycleIteration ticksPerMs r u)

/-- What is observed at an iteration that toggles the light: the cycle duration in force,
the clock ticks elapsed since `last_update`, and the value of `time_since_last_update`. -/
structure Fired where
  duration : ℚ
  ticks : Int
  ms : Int
deriving DecidableEq

/-- The observations at the iterations of a run that toggled the light, in order. -/
def firings (ticksPerMs : Int) : List Reading → Updater → List Fired
  | [], _ => []
  | r :: rs, u =>
    if fires ticksPerMs r u then
      { duration := u.cycle_duration, ticks := r.now - u.last_update,
        ms := time_since_last_update ticksPerMs r u } ::
        firings ticksPerMs rs (cycleIteration ticksPerMs r u)
    else
      firings ticksPerMs rs (cycleIteration ticksPerMs r u)

/-- One step of an interleaving. -/
inductive Event (T : Type) where
  /-- A caller that has not called yet calls `receive` and evaluates the wait predicate
  for the first time. -/
  | call : Event T
  /-- A call of `send` with the message `v`. -/
  | send (v : T) : Event T
  /-- A caller that was woken gets the lock back and evaluates the wait predicate
  again. -/
  | check : Event T
  /-- A caller suspended on the condition variable wakes without a notification. -/
  | spurious : Event T
deriving DecidableEq, Repr

/-- The queue together with its callers of `receive`: how many have not called yet, how
many are suspended on the condition variable, how many were woken and have not yet
evaluated the wait predicate again, and the values the others have returned, the most
recent first. -/
structure Shared (T : Type) where
  queue : MessageQueue T
  pending : Nat
  waiting : Nat
  woken : Nat
  returned : List T
deriving DecidableEq, Repr

/-- The empty queue with `n` callers that have not called yet. -/
def Shared.init {T : Type} (n : Nat) : Shared T :=
  { queue := ⟨[]⟩, pending := n, waiting := 0, woken := 0, returned := [] }

/-- A caller holding the lock evaluates the wait predicate: `receive` either returns a
value, or the caller is suspended on the condition variable. -/
def Shared.attempt {T : Type} (s : Shared T) : Shared T :=
  match s.queue.receive with
  | Received.returned msg q => { s with queue := q, returned := msg :: s.returned }
  | Received.blocked q => { s with queue := q, waiting := s.waiting + 1 }
  | Received.undefined => s

/-- The effect of one step.  `notify_one` in `send` wakes one caller suspended on the
condition variable when there is one.  A step that no caller can take changes nothing. -/
def Shared.step {T : Type} (s : Shared T) : Event T → Shared T
  | Event.call =>
    if s.pending = 0 then s
    else Shared.attempt { s with pending := s.pending - 1 }
  | Event.send v =>
    if s.waiting = 0 then { s with queue := s.queue.send v }
    else { s with queue := s.queue.send v, waiting := s.waiting - 1, woken := s.woken + 1 }
  | Event.check =>
    if s.woken = 0 then s
    else Shared.attempt { s with woken := s.woken - 1 }
  | Event.spurious =>
    if s.waiting = 0 then s
    else { s with waiting := s.waiting - 1, woken := s.woken + 1 }

/-- The state after the steps of an interleaving, in order. -/
def Shared.run {T : Type} (s : Shared T) (es : List (Event T)) : Shared T :=
  es.foldl Shared.step s

/-- The messages sent in an interleaving, in the order of the sends. -/
def sentValues {T : Type} : List (Event T) → List T
  | [] => []
  | Event.send v :: es => v :: sentValues es
  | Event.call :: es => sentValues es
  | Event.check :: es => sentValues es
  | Event.spurious :: es => sentValues es

/-- The steps left to the callers that can run without a further `send` or wakeup: every
caller that has not called yet calls, and every woken caller evaluates the predicate. -/
def Shared.settle {T : Type} (s : Shared T) : List (Event T) :=
  List.replicate s.pending Event.call ++ List.replicate s.woken Event.check

/-- What every interleaving keeps true: the values returned and the values still queued
are together the values sent, every caller is accounted for, and while a caller is
suspended there are at least as many woken callers as queued values. -/
def Accounted {T : Type} (n : Nat) (sent : List T) (s : Shared T) : Prop :=
  (s.returned ++ s.queue._queue).Perm sent ∧
  s.pending + s.waiting + s.woken + s.returned.length = n ∧
  (s.queue._queue.length ≤ s.woken ∨ s.waiting = 0)

/-! ## Lemmas on the queue -/

theorem receive_nil {T : Type} : (⟨[]⟩ : MessageQueue T).receive = Received.blocked ⟨[]⟩ := rfl

theorem receive_append_singleton {T : Type} (xs : List T) (v : T) :
    (⟨xs ++ [v]⟩ : MessageQueue T).receive = Received.returned v ⟨xs⟩ := by
  have h1 : (xs ++ [v]).isEmpty = false := by cases xs <;> rfl
  have h2 : back (xs ++ [v]) = some v := by simp [back]
  have h3 : pop_back (xs ++ [v]) = some xs := by
    unfold pop_back
    cases h : xs ++ [v] with
    | nil => simp at h
    | cons a t => simp [← h]
  simp [MessageQueue.receive, h1, h2, h3]

theorem receive_send {T : Type} (q : MessageQueue T) (v : T) :
    (q.send v).receive = Received.returned v q := by
  cases q with
  | mk xs => exact receive_append_singleton xs v

theorem queue_eq_nil_or_snoc {T : Type} (xs : List T) :
    xs = [] ∨ ∃ ys v, xs = ys ++ [v] := by
  rcases List.eq_nil_or_concat xs with h | ⟨ys, v, h⟩
  · exact Or.inl h
  · exact Or.inr ⟨ys, v, by simpa using h⟩

theorem sendAll_queue {T : Type} (q : MessageQueue T) (msgs : List T) :
    (sendAll q msgs)._queue = q._queue ++ msgs := by
  induction msgs generalizing q with
  | nil => simp [sendAll]
  | cons m ms ih =>
    have : sendAll q (m :: ms) = sendAll (q.send m) ms := rfl
    rw [this, ih]
    simp [MessageQueue.send, push_back]

theorem receiveN_append_reverse {T : Type} (xs msgs : List T) :
    receiveN msgs.length (⟨xs ++ msgs⟩ : MessageQueue T) = some (msgs.reverse, ⟨xs⟩) := by
  induction msgs using List.reverseRecOn with
  | nil => simp [receiveN]
  | append_singleton ms m ih =>
    have hlen : (ms ++ [m]).length = ms.length + 1 := by simp
    have hq : xs ++ (ms ++ [m]) = (xs ++ ms) ++ [m] := by simp
    rw [hlen, hq, receiveN, receive_append_singleton]
    simp [ih]


/-! ## Lemmas on `waitForGreen` -/

theorem phase_ne_green {p : TrafficLightPhase} (h : p ≠ TrafficLightPhase.green) :
    p = TrafficLightPhase.red := by
  cases p
  · rfl
  · exact absurd rfl h

/-- Every queue holding a green splits at its most recent green. -/
theorem split_at_latest_green (q : List TrafficLightPhase)
    (h : TrafficLightPhase.green ∈ q) :
    ∃ older newer, q = older ++ TrafficLightPhase.green :: newer ∧
      TrafficLightPhase.green ∉ newer := by
  induction q with
  | nil => simp at h
  | cons a t ih =>
    by_cases ht : TrafficLightPhase.green ∈ t
    · obtain ⟨older, newer, hq, hn⟩ := ih ht
      exact ⟨a :: older, newer, by simp [hq], hn⟩
    · have ha : a = TrafficLightPhase.green := by
        rcases List.mem_cons.mp h with h1 | h1
        · exact h1.symm
        · exact absurd h1 ht
      exact ⟨[], t, by simp [ha], ht⟩

theorem waitForGreen_snoc_green (fuel : Nat) (p : TrafficLightPhase)
    (xs : List TrafficLightPhase) :
    TrafficLight.waitForGreen (fuel + 1) ⟨p, ⟨xs ++ [TrafficLightPhase.green]⟩⟩ =
      Waited.returned ⟨p, ⟨xs⟩⟩ := by
  simp [TrafficLight.waitForGreen, receive_append_singleton]

theorem waitForGreen_snoc_red (fuel : Nat) (p : TrafficLightPhase)
    (xs : List TrafficLightPhase) :
    TrafficLight.waitForGreen (fuel + 1) ⟨p, ⟨xs ++ [TrafficLightPhase.red]⟩⟩ =
      TrafficLight.waitForGreen fuel ⟨p, ⟨xs⟩⟩ := by
  simp [TrafficLight.waitForGreen, receive_append_singleton]

theorem waitForGreen_nil (fuel : Nat) (p : TrafficLightPhase) :
    TrafficLight.waitForGreen (fuel + 1) ⟨p, ⟨[]⟩⟩ = Waited.blocked ⟨p, ⟨[]⟩⟩ := by
  simp [TrafficLight.waitForGreen, receive_nil]

/-- With only reds after the most recent green, the loop discards one red per iteration
and returns in the iteration after the last of them. -/
theorem waitForGreen_split (p : TrafficLightPhase) (older : List TrafficLightPhase) :
    ∀ (fuel : Nat) (newer : List TrafficLightPhase), TrafficLightPhase.green ∉ newer →
      TrafficLight.waitForGreen fuel ⟨p, ⟨older ++ TrafficLightPhase.green :: newer⟩⟩ =
        if fuel ≤ newer.length then
          Waited.running
            ⟨p, ⟨older ++ TrafficLightPhase.green :: newer.take (newer.length - fuel)⟩⟩
        else Waited.returned ⟨p, ⟨older⟩⟩ := by
  intro fuel
  induction fuel with
  | zero =>
    intro newer _
    simp [TrafficLight.waitForGreen]
  | succ n ih =>
    intro newer hn
    rcases queue_eq_nil_or_snoc newer with h | ⟨ys, v, h⟩
    · subst h
      have := waitForGreen_snoc_green n p older
      simpa using this
    · subst h
      have hv : v = TrafficLightPhase.red := by
        apply phase_ne_green
        intro hv
        exact hn (by simp [hv])
      have hys : TrafficLightPhase.green ∉ ys := fun hy => hn (by simp [hy])
      subst hv
      have hq : older ++ TrafficLightPhase.green :: (ys ++ [TrafficLightPhase.red]) =
          (older ++ TrafficLightPhase.green :: ys) ++ [TrafficLightPhase.red] := by simp
      rw [hq, waitForGreen_snoc_red, ih ys hys]
      have hlen : (ys ++ [TrafficLightPhase.red]).length = ys.length + 1 := by simp
      have htake : (ys ++ [TrafficLightPhase.red]).take (ys.length + 1 - (n + 1)) =
          ys.take (ys.length - n) := by
        rw [Nat.add_sub_add_right]
        exact List.take_append_of_le_length (Nat.sub_le _ _)
      rw [hlen, htake]
      by_cases hle : n ≤ ys.length
      · simp [hle]
      · simp [hle]

/-- On a queue without a green the loop never returns: it discards one red per iteration
and is then suspended on the empty queue. -/
theorem waitForGreen_no_green (p : TrafficLightPhase) :
    ∀ (fuel : Nat) (q : List TrafficLightPhase), TrafficLightPhase.green ∉ q →
      TrafficLight.waitForGreen fuel ⟨p, ⟨q⟩⟩ =
        if fuel ≤ q.length then Waited.running ⟨p, ⟨q.take (q.length - fuel)⟩⟩
        else Waited.blocked ⟨p, ⟨[]⟩⟩ := by
  intro fuel
  induction fuel with
  | zero =>
    intro q _
    simp [TrafficLight.waitForGreen]
  | succ n ih =>
    intro q hn
    rcases queue_eq_nil_or_snoc q with h | ⟨ys, v, h⟩
    · subst h
      simpa using waitForGreen_nil n p
    · subst h
      have hv : v = TrafficLightPhase.red := by
        apply phase_ne_green
        intro hv
        exact hn (by simp [hv])
      have hys : TrafficLightPhase.green ∉ ys := fun hy => hn (by simp [hy])
      subst hv
      rw [waitForGreen_snoc_red, ih ys hys]
      have hlen : (ys ++ [TrafficLightPhase.red]).length = ys.length + 1 := by simp
      have htake : (ys ++ [TrafficLightPhase.red]).take (ys.length + 1 - (n + 1)) =
          ys.take (ys.length - n) := by
        rw [Nat.add_sub_add_right]
        exact List.take_append_of_le_length (Nat.sub_le _ _)
      rw [hlen, htake]
      by_cases hle : n ≤ ys.length
      · simp [hle]
      · simp [hle]


/-! ## The message queue: order, blocking, round trip -/

/-- C1: sending `v1 .. vn` to any queue and then receiving `n` times returns
`vn .. v1`, most recently sent first, and leaves the queue as it was before the sends; on
an empty queue, sending `a`, `b`, `c` and receiving three times yields `c`, `b`, `a`. -/
theorem lifo_order {T : Type} (q : MessageQueue T) (vs : List T) :
    receiveN vs.length (sendAll q vs) = some (vs.reverse, q) ∧
    ∀ a b c : T,
      receiveN 3 ((((⟨[]⟩ : MessageQueue T).send a).send b).send c) =
        some ([c, b, a], ⟨[]⟩) := by
  constructor
  · cases q with
    | mk xs =>
      have h : sendAll (⟨xs⟩ : MessageQueue T) vs = ⟨xs ++ vs⟩ := by
        have := sendAll_queue (⟨xs⟩ : MessageQueue T) vs
        cases hq : sendAll (⟨xs⟩ : MessageQueue T) vs with
        | mk ys => rw [hq] at this; simpa using this
      rw [h]
      exact receiveN_append_reverse xs vs
  · intro a b c
    exact receiveN_append_reverse [] [a, b, c]

/-- C2: `receive` returns a value exactly when the queue is not empty when the wait
predicate is checked, and then the value is the last element and the rest is kept; it
never reaches `back()` or `pop_back()` on an empty container; on an empty queue it stays
blocked with the queue unchanged; after a `send v` on the empty queue it returns `v`. -/
theorem receive_only_from_nonempty {T : Type} (q : MessageQueue T) :
    q.receive ≠ Received.undefined ∧
    ((∃ v q1, q.receive = Received.returned v q1) ↔ q._queue ≠ []) ∧
    (∀ v q1, q.receive = Received.returned v q1 ↔ q._queue = q1._queue ++ [v]) ∧
    (q.receive = Received.blocked q ↔ q._queue = []) ∧
    ∀ v : T, ((⟨[]⟩ : MessageQueue T).send v).receive = Received.returned v ⟨[]⟩ := by
  cases q with
  | mk xs =>
    rcases queue_eq_nil_or_snoc xs with h | ⟨ys, w, h⟩
    · subst h
      refine ⟨?_, ?_, ?_, ?_, ?_⟩
      · simp [receive_nil]
      · simp [receive_nil]
      · intro v q1
        simp [receive_nil]
      · simp [receive_nil]
      · intro v
        exact receive_send _ v
    · subst h
      refine ⟨?_, ?_, ?_, ?_, ?_⟩
      · simp [receive_append_singleton]
      · simp [receive_append_singleton]
      · intro v q1
        cases q1 with
        | mk zs =>
          rw [receive_append_singleton]
          constructor
          · intro h
            injection h with h1 h2
            injection h2 with h3
            simp [h1, h3]
          · intro h
            have h4 : ys ++ [w] = zs ++ [v] := h
            obtain ⟨h5, h6⟩ := List.append_inj' h4 rfl
            have h7 : w = v := by simpa using h6
            rw [h5, h7]
      · simp [receive_append_singleton]
      · intro v
        exact receive_send _ v

/-- C3: for every queue `q` and value `v`, `send v` yields a queue (it has no failure
outcome) whose container is that of `q` followed by `v`, and a `receive` directly after it
returns `v` and leaves exactly `q`. -/
theorem send_receive_round_trip {T : Type} (q : MessageQueue T) (v : T) :
    (q.send v).receive = Received.returned v q ∧
    (q.send v)._queue = q._queue ++ [v] :=
  ⟨receive_send q v, rfl⟩

/-- C10, as the code has it: when two sends happen between two calls of `receive`, the
next `receive` returns the later value and keeps the earlier one in the queue, and the
`receive` after that returns the earlier value and leaves the queue as it was before
the two sends. -/
theorem earlier_send_kept_for_later_receive {T : Type} (q : MessageQueue T) (a b : T) :
    ((q.send a).send b).receive = Received.returned b (q.send a) ∧
    (q.send a).receive = Received.returned a q ∧
    receiveN 2 ((q.send a).send b) = some ([b, a], q) := by
  refine ⟨receive_send _ b, receive_send q a, ?_⟩
  simp [receiveN, receive_send]

/-- C10 fails as stated: after the two transitions of a new light, green then red, with
no `receive` in between, the first `receive` returns the later phase red and the second
`receive` returns the earlier phase green, which was therefore not dropped. -/
theorem earlier_phase_not_dropped :
    TrafficLight.new.toggleAndSend.toggleAndSend._messageQueue =
      ((⟨[]⟩ : MessageQueue TrafficLightPhase).send TrafficLightPhase.green).send
        TrafficLightPhase.red ∧
    TrafficLight.new.toggleAndSend.toggleAndSend._messageQueue.receive =
      Received.returned TrafficLightPhase.red ⟨[TrafficLightPhase.green]⟩ ∧
    (⟨[TrafficLightPhase.green]⟩ : MessageQueue TrafficLightPhase).receive =
      Received.returned TrafficLightPhase.green ⟨[]⟩ := by
  refine ⟨by decide, by decide, by decide⟩

/-! ## `waitForGreen` -/

/-- C5, as the code has it (the only waiting method is `waitForGreen`, its target is
fixed to green): for every light whose queue holds a green, with `newer` the phases sent
after the most recent green and `older` those sent before it, the loop receives and
discards the phases of `newer`, most recent first, is still running while it has received
only those, and returns in the iteration that receives the most recent green, leaving
exactly `older` in the queue and the current phase untouched. -/
theorem waitForGreen_consumes_up_to_latest_green (tl : TrafficLight)
    (h : TrafficLightPhase.green ∈ tl._messageQueue._queue) :
    ∃ older newer,
      tl._messageQueue._queue = older ++ TrafficLightPhase.green :: newer ∧
      TrafficLightPhase.green ∉ newer ∧
      (∀ fuel, newer.length < fuel →
        tl.waitForGreen fuel = Waited.returned ⟨tl._currentPhase, ⟨older⟩⟩) ∧
      (∀ fuel, fuel ≤ newer.length →
        tl.waitForGreen fuel =
          Waited.running ⟨tl._currentPhase,
            ⟨older ++ TrafficLightPhase.green :: newer.take (newer.length - fuel)⟩⟩) := by
  obtain ⟨p, ⟨q⟩⟩ := tl
  obtain ⟨older, newer, hq, hn⟩ := split_at_latest_green q h
  refine ⟨older, newer, hq, hn, ?_, ?_⟩
  · intro fuel hf
    have hq1 : q = older ++ TrafficLightPhase.green :: newer := hq
    rw [hq1, waitForGreen_split p older fuel newer hn, if_neg (Nat.not_le.mpr hf)]
  · intro fuel hf
    have hq1 : q = older ++ TrafficLightPhase.green :: newer := hq
    rw [hq1, waitForGreen_split p older fuel newer hn, if_pos hf]

/-- Witness for C5 at the queue red, green, red (oldest first): the newer red is
discarded, the green is accepted, the older red stays. -/
theorem waitForGreen_consumes_up_to_latest_green_witness :
    TrafficLightPhase.green ∈
      [TrafficLightPhase.red, TrafficLightPhase.green, TrafficLightPhase.red] ∧
    ∃ older newer,
      [TrafficLightPhase.red, TrafficLightPhase.green, TrafficLightPhase.red] =
        older ++ TrafficLightPhase.green :: newer ∧
      TrafficLightPhase.green ∉ newer ∧
      (∀ fuel, newer.length < fuel →
        TrafficLight.waitForGreen fuel
            ⟨TrafficLightPhase.red,
              ⟨[TrafficLightPhase.red, TrafficLightPhase.green, TrafficLightPhase.red]⟩⟩ =
          Waited.returned ⟨TrafficLightPhase.red, ⟨older⟩⟩) ∧
      (∀ fuel, fuel ≤ newer.length →
        TrafficLight.waitForGreen fuel
            ⟨TrafficLightPhase.red,
              ⟨[TrafficLightPhase.red, TrafficLightPhase.green, TrafficLightPhase.red]⟩⟩ =
          Waited.running ⟨TrafficLightPhase.red,
            ⟨older ++ TrafficLightPhase.green :: newer.take (newer.length - fuel)⟩⟩) :=
  ⟨by decide,
    waitForGreen_consumes_up_to_latest_green
      ⟨TrafficLightPhase.red,
        ⟨[TrafficLightPhase.red, TrafficLightPhase.green, TrafficLightPhase.red]⟩⟩
      (by decide)⟩

/-- C5 fails as stated for the target red: red occurs in the queue holding one red, yet
the waiting method of the code receives that red, discards it and is then suspended on
the empty queue; for no number of iterations has it returned. -/
theorem waitForGreen_does_not_return_on_red :
    TrafficLightPhase.red ∈ [TrafficLightPhase.red] ∧
    TrafficLight.waitForGreen 1 ⟨TrafficLightPhase.red, ⟨[TrafficLightPhase.red]⟩⟩ =
      TrafficLight.waitForGreen 0 ⟨TrafficLightPhase.red, ⟨[]⟩⟩ ∧
    (∀ fuel tl, TrafficLight.waitForGreen fuel
        ⟨TrafficLightPhase.red, ⟨[TrafficLightPhase.red]⟩⟩ ≠ Waited.returned tl) ∧
    ∀ fuel, 1 < fuel →
      TrafficLight.waitForGreen fuel ⟨TrafficLightPhase.red, ⟨[TrafficLightPhase.red]⟩⟩ =
        Waited.blocked ⟨TrafficLightPhase.red, ⟨[]⟩⟩ := by
  have hno : TrafficLightPhase.green ∉ [TrafficLightPhase.red] := by decide
  refine ⟨by decide, by decide, ?_, ?_⟩
  · intro fuel tl
    rw [waitForGreen_no_green TrafficLightPhase.red fuel _ hno]
    split <;> simp
  · intro fuel hf
    rw [waitForGreen_no_green TrafficLightPhase.red fuel _ hno]
    have : ¬ fuel ≤ [TrafficLightPhase.red].length := by simpa using hf
    rw [if_neg this]


/-! ## The updater loop -/

theorem toggleAndSend_phase (tl : TrafficLight) :
    tl.toggleAndSend._currentPhase =
      if tl._currentPhase = TrafficLightPhase.red then TrafficLightPhase.green
      else TrafficLightPhase.red := rfl

theorem toggleAndSend_queue (tl : TrafficLight) :
    tl.toggleAndSend._messageQueue._queue =
      tl._messageQueue._queue ++ [tl.toggleAndSend._currentPhase] := rfl

theorem iterate_toggleAndSend_phase (k : Nat) :
    ∀ tl : TrafficLight,
      (tl._currentPhase = TrafficLightPhase.red →
        (Nat.iterate TrafficLight.toggleAndSend k tl)._currentPhase =
          if k % 2 = 0 then TrafficLightPhase.red else TrafficLightPhase.green) ∧
      (tl._currentPhase = TrafficLightPhase.green →
        (Nat.iterate TrafficLight.toggleAndSend k tl)._currentPhase =
          if k % 2 = 0 then TrafficLightPhase.green else TrafficLightPhase.red) := by
  induction k with
  | zero =>
    intro tl
    simp
  | succ n ih =>
    intro tl
    have hstep : Nat.iterate TrafficLight.toggleAndSend (n + 1) tl =
        Nat.iterate TrafficLight.toggleAndSend n tl.toggleAndSend := rfl
    rw [hstep]
    constructor
    · intro hp
      have hg : tl.toggleAndSend._currentPhase = TrafficLightPhase.green := by
        rw [toggleAndSend_phase, if_pos hp]
      rw [(ih tl.toggleAndSend).2 hg]
      rcases Nat.mod_two_eq_zero_or_one n with h | h <;> simp [Nat.add_mod, h]
    · intro hp
      have hr : tl.toggleAndSend._currentPhase = TrafficLightPhase.red := by
        rw [toggleAndSend_phase, hp]
        rfl
      rw [(ih tl.toggleAndSend).1 hr]
      rcases Nat.mod_two_eq_zero_or_one n with h | h <;> simp [Nat.add_mod, h]

theorem cycleThroughPhases_phase (ticksPerMs : Int) (rs : List Reading) :
    ∀ u : Updater,
      (u.light._currentPhase = TrafficLightPhase.red →
        (cycleThroughPhases ticksPerMs rs u).light._currentPhase =
          if transitions ticksPerMs rs u % 2 = 0 then TrafficLightPhase.red
          else TrafficLightPhase.green) ∧
      (u.light._currentPhase = TrafficLightPhase.green →
        (cycleThroughPhases ticksPerMs rs u).light._currentPhase =
          if transitions ticksPerMs rs u % 2 = 0 then TrafficLightPhase.green
          else TrafficLightPhase.red) := by
  induction rs with
  | nil =>
    intro u
    simp [cycleThroughPhases, transitions]
  | cons r rs ih =>
    intro u
    by_cases hf : fires ticksPerMs r u = true
    · have hit : cycleIteration ticksPerMs r u =
          { light := u.light.toggleAndSend, cycle_duration := r.draw,
            last_update := r.now_reset } := by
        simp [cycleIteration, hf]
      have hrun : cycleThroughPhases ticksPerMs (r :: rs) u =
          cycleThroughPhases ticksPerMs rs (cycleIteration ticksPerMs r u) := rfl
      have hcnt : transitions ticksPerMs (r :: rs) u =
          1 + transitions ticksPerMs rs (cycleIteration ticksPerMs r u) := by
        simp [transitions, hf]
      rw [hrun, hcnt]
      constructor
      · intro hp
        have hg : (cycleIteration ticksPerMs r u).light._currentPhase =
            TrafficLightPhase.green := by
          rw [hit]
          show u.light.toggleAndSend._currentPhase = _
          rw [toggleAndSend_phase, if_pos hp]
        rw [(ih _).2 hg]
        rcases Nat.mod_two_eq_zero_or_one
          (transitions ticksPerMs rs (cycleIteration ticksPerMs r u)) with h | h <;>
          simp [Nat.add_mod, h]
      · intro hp
        have hr : (cycleIteration ticksPerMs r u).light._currentPhase =
            TrafficLightPhase.red := by
          rw [hit]
          show u.light.toggleAndSend._currentPhase = _
          rw [toggleAndSend_phase, hp]
          rfl
        rw [(ih _).1 hr]
        rcases Nat.mod_two_eq_zero_or_one
          (transitions ticksPerMs rs (cycleIteration ticksPerMs r u)) with h | h <;>
          simp [Nat.add_mod, h]
    · have hit : cycleIteration ticksPerMs r u = u := by
        simp [cycleIteration, hf]
      have hrun : cycleThroughPhases ticksPerMs (r :: rs) u =
          cycleThroughPhases ticksPerMs rs u := by
        simp [cycleThroughPhases, hit]
      have hcnt : transitions ticksPerMs (r :: rs) u = transitions ticksPerMs rs u := by
        simp [transitions, hf, hit]
      rw [hrun, hcnt]
      exact ih u

/-- C4: a new traffic light shows red; a transition takes red to green and green to red
and nothing else; after `k` transitions from a new light, and after any run of the updater
loop that toggled `k` times, the phase is red when `k` is even and green when `k` is odd;
`getCurrentPhase` returns the current phase and leaves the light as it is. -/
theorem phase_toggling :
    TrafficLight.new._currentPhase = TrafficLightPhase.red ∧
    (∀ tl : TrafficLight,
      tl.toggleAndSend._currentPhase ≠ tl._currentPhase ∧
      tl.toggleAndSend._currentPhase =
        match tl._currentPhase with
        | TrafficLightPhase.red => TrafficLightPhase.green
        | TrafficLightPhase.green => TrafficLightPhase.red) ∧
    (∀ k : Nat,
      (Nat.iterate TrafficLight.toggleAndSend k TrafficLight.new)._currentPhase =
        if k % 2 = 0 then TrafficLightPhase.red else TrafficLightPhase.green) ∧
    (∀ (ticksPerMs : Int) (rs : List Reading) (draw : ℚ) (now : Int),
      (cycleThroughPhases ticksPerMs rs
          (Updater.start TrafficLight.new draw now)).light._currentPhase =
        if transitions ticksPerMs rs (Updater.start TrafficLight.new draw now) % 2 = 0
        then TrafficLightPhase.red else TrafficLightPhase.green) ∧
    ∀ tl : TrafficLight, tl.getCurrentPhase = (tl._currentPhase, tl) := by
  refine ⟨rfl, ?_, ?_, ?_, ?_⟩
  · intro tl
    obtain ⟨p, q⟩ := tl
    cases p <;> exact ⟨by simp [toggleAndSend_phase], rfl⟩
  · intro k
    exact (iterate_toggleAndSend_phase k TrafficLight.new).1 rfl
  · intro ticksPerMs rs draw now
    exact (cycleThroughPhases_phase ticksPerMs rs _).1 rfl
  · intro tl
    rfl

/-- C8: one iteration of the updater loop toggles exactly when the whole milliseconds
elapsed since `last_update` reach `cycle_duration`.  When it toggles, the new current
phase is the other phase, the queue is the old queue with that new phase appended, so
`getCurrentPhase` then returns the most recently sent element and the older elements are
unchanged, and the stop watch and the cycle duration are renewed.  When it does not
toggle, the light (phase and queue) and the two locals are unchanged. -/
theorem cycleIteration_effect (ticksPerMs : Int) (r : Reading) (u : Updater) :
    (fires ticksPerMs r u = true ↔
      u.cycle_duration ≤ ((Int.tdiv (r.now - u.last_update) ticksPerMs : Int) : ℚ)) ∧
    (fires ticksPerMs r u = true →
      (cycleIteration ticksPerMs r u).light._currentPhase ≠ u.light._currentPhase ∧
      (cycleIteration ticksPerMs r u).light._currentPhase =
        (if u.light._currentPhase = TrafficLightPhase.red then TrafficLightPhase.green
         else TrafficLightPhase.red) ∧
      (cycleIteration ticksPerMs r u).light._messageQueue._queue =
        u.light._messageQueue._queue ++
          [(cycleIteration ticksPerMs r u).light._currentPhase] ∧
      (cycleIteration ticksPerMs r u).light._messageQueue.receive =
        Received.returned (cycleIteration ticksPerMs r u).light.getCurrentPhase.1
          u.light._messageQueue ∧
      (cycleIteration ticksPerMs r u).last_update = r.now_reset ∧
      (cycleIteration ticksPerMs r u).cycle_duration = r.draw) ∧
    (fires ticksPerMs r u = false → cycleIteration ticksPerMs r u = u) := by
  refine ⟨?_, ?_, ?_⟩
  · simp [fires, time_since_last_update]
  · intro hf
    have hit : cycleIteration ticksPerMs r u =
        { light := u.light.toggleAndSend, cycle_duration := r.draw,
          last_update := r.now_reset } := by
      simp [cycleIteration, hf]
    rw [hit]
    refine ⟨?_, rfl, rfl, ?_, rfl, rfl⟩
    · show u.light.toggleAndSend._currentPhase ≠ u.light._currentPhase
      rw [toggleAndSend_phase]
      cases h : u.light._currentPhase <;> simp
    · show (u.light._messageQueue.send u.light.toggleAndSend._currentPhase).receive = _
      exact receive_send _ _
  · intro hf
    simp [cycleIteration, hf]


/-- Witness for C8 on a clock with 1000 ticks in a millisecond and a cycle duration of
4200.5 ms: at 4201000 ticks the iteration toggles the new light to green and sends green;
at 4200999 ticks, 4200 whole milliseconds, it changes nothing. -/
theorem cycleIteration_effect_witness :
    fires 1000 ⟨4201000, 4201003, 5000⟩ (Updater.start TrafficLight.new (8401 / 2) 0) = true ∧
    ((cycleIteration 1000 ⟨4201000, 4201003, 5000⟩
          (Updater.start TrafficLight.new (8401 / 2) 0)).light._currentPhase =
        TrafficLightPhase.green ∧
      (cycleIteration 1000 ⟨4201000, 4201003, 5000⟩
          (Updater.start TrafficLight.new (8401 / 2) 0)).light._messageQueue._queue =
        [TrafficLightPhase.green] ∧
      (cycleIteration 1000 ⟨4201000, 4201003, 5000⟩
          (Updater.start TrafficLight.new (8401 / 2) 0)).last_update = 4201003 ∧
      (cycleIteration 1000 ⟨4201000, 4201003, 5000⟩
          (Updater.start TrafficLight.new (8401 / 2) 0)).cycle_duration = 5000) ∧
    fires 1000 ⟨4200999, 4201003, 5000⟩ (Updater.start TrafficLight.new (8401 / 2) 0) = false ∧
    cycleIteration 1000 ⟨4200999, 4201003, 5000⟩ (Updater.start TrafficLight.new (8401 / 2) 0) =
      Updater.start TrafficLight.new (8401 / 2) 0 := by
  have hyes :
      fires 1000 ⟨4201000, 4201003, 5000⟩ (Updater.start TrafficLight.new (8401 / 2) 0) =
        true := by
    have h : Int.tdiv 4201000 1000 = 4201 := by decide
    simp [fires, time_since_last_update, Updater.start, h]
    norm_num
  have hno :
      fires 1000 ⟨4200999, 4201003, 5000⟩ (Updater.start TrafficLight.new (8401 / 2) 0) =
        false := by
    have h : Int.tdiv 4200999 1000 = 4200 := by decide
    simp [fires, time_since_last_update, Updater.start, h]
    norm_num
  obtain ⟨_, hphase, hqueue, _, hlast, hdur⟩ :=
    (cycleIteration_effect 1000 ⟨4201000, 4201003, 5000⟩
      (Updater.start TrafficLight.new (8401 / 2) 0)).2.1 hyes
  refine ⟨hyes, ⟨?_, ?_, hlast, hdur⟩, hno, ?_⟩
  · rw [hphase]
    rfl
  · rw [hqueue, hphase]
    rfl
  · exact (cycleIteration_effect 1000 ⟨4200999, 4201003, 5000⟩
      (Updater.start TrafficLight.new (8401 / 2) 0)).2.2 hno

/-- C9: the state reached from construction by two transitions of the updater with no
`receive` in between has the queue green, red (oldest first) and the current phase red;
there `waitForGreen` discards the newer red in its first iteration and returns on the
older green in its second, with no further transition, while the current phase is red.
In general `waitForGreen` returns from every light whose queue holds a green, whatever the
current phase, and leaves the current phase as it is. -/
theorem waitForGreen_returns_on_older_green :
    (cycleThroughPhases 1 [⟨4000, 4001, 5000⟩, ⟨9001, 9002, 4500⟩]
        (Updater.start TrafficLight.new 4000 0)).light =
      ⟨TrafficLightPhase.red, ⟨[TrafficLightPhase.green, TrafficLightPhase.red]⟩⟩ ∧
    transitions 1 [⟨4000, 4001, 5000⟩, ⟨9001, 9002, 4500⟩]
        (Updater.start TrafficLight.new 4000 0) = 2 ∧
    TrafficLight.waitForGreen 1
        ⟨TrafficLightPhase.red, ⟨[TrafficLightPhase.green, TrafficLightPhase.red]⟩⟩ =
      Waited.running ⟨TrafficLightPhase.red, ⟨[TrafficLightPhase.green]⟩⟩ ∧
    TrafficLight.waitForGreen 2
        ⟨TrafficLightPhase.red, ⟨[TrafficLightPhase.green, TrafficLightPhase.red]⟩⟩ =
      Waited.returned ⟨TrafficLightPhase.red, ⟨[]⟩⟩ ∧
    (TrafficLight.getCurrentPhase ⟨TrafficLightPhase.red, ⟨[]⟩⟩).1 = TrafficLightPhase.red ∧
    ∀ tl : TrafficLight, TrafficLightPhase.green ∈ tl._messageQueue._queue →
      ∃ q, ∀ fuel, tl._messageQueue._queue.length ≤ fuel →
        tl.waitForGreen fuel = Waited.returned ⟨tl._currentPhase, q⟩ := by
  refine ⟨by decide, by decide, by decide, by decide, rfl, ?_⟩
  intro tl h
  obtain ⟨p, ⟨q⟩⟩ := tl
  obtain ⟨older, newer, hq, hn⟩ := split_at_latest_green q h
  refine ⟨⟨older⟩, ?_⟩
  intro fuel hf
  have hq1 : q = older ++ TrafficLightPhase.green :: newer := hq
  have hlen : newer.length < fuel := by
    have h1 : (older ++ TrafficLightPhase.green :: newer).length ≤ fuel := by
      rw [← hq1]
      exact hf
    simp at h1
    omega
  rw [hq1, waitForGreen_split p older fuel newer hn, if_neg (Nat.not_le.mpr hlen)]

/-- Witness for C9 at the light showing red with the queue green, red. -/
theorem waitForGreen_returns_on_older_green_witness :
    TrafficLightPhase.green ∈ [TrafficLightPhase.green, TrafficLightPhase.red] ∧
    ∃ q, ∀ fuel, [TrafficLightPhase.green, TrafficLightPhase.red].length ≤ fuel →
      TrafficLight.waitForGreen fuel
          ⟨TrafficLightPhase.red, ⟨[TrafficLightPhase.green, TrafficLightPhase.red]⟩⟩ =
        Waited.returned ⟨TrafficLightPhase.red, q⟩ :=
  ⟨by decide,
    waitForGreen_returns_on_older_green.2.2.2.2.2
      ⟨TrafficLightPhase.red, ⟨[TrafficLightPhase.green, TrafficLightPhase.red]⟩⟩
      (by decide)⟩


/-! ## Timing of the updater loop -/

theorem attempt_nil {T : Type} (p w k : Nat) (ret : List T) :
    Shared.attempt (⟨⟨[]⟩, p, w, k, ret⟩ : Shared T) = ⟨⟨[]⟩, p, w + 1, k, ret⟩ := rfl

theorem attempt_snoc {T : Type} (xs : List T) (v : T) (p w k : Nat) (ret : List T) :
    Shared.attempt (⟨⟨xs ++ [v]⟩, p, w, k, ret⟩ : Shared T) = ⟨⟨xs⟩, p, w, k, v :: ret⟩ := by
  simp [Shared.attempt, receive_append_singleton]

theorem run_cons {T : Type} (s : Shared T) (e : Event T) (es : List (Event T)) :
    s.run (e :: es) = (s.step e).run es := rfl

theorem run_append {T : Type} (s : Shared T) (es fs : List (Event T)) :
    s.run (es ++ fs) = (s.run es).run fs := by
  simp [Shared.run, List.foldl_append]

theorem sentValues_append {T : Type} (es fs : List (Event T)) :
    sentValues (es ++ fs) = sentValues es ++ sentValues fs := by
  induction es with
  | nil => rfl
  | cons e es ih =>
    cases e <;> simp [sentValues, ih]

theorem sentValues_replicate_call {T : Type} (n : Nat) :
    sentValues (List.replicate n (Event.call : Event T)) = [] := by
  induction n with
  | zero => rfl
  | succ n ih => simpa [List.replicate_succ, sentValues] using ih

theorem sentValues_replicate_check {T : Type} (n : Nat) :
    sentValues (List.replicate n (Event.check : Event T)) = [] := by
  induction n with
  | zero => rfl
  | succ n ih => simpa [List.replicate_succ, sentValues] using ih

theorem sentValues_settle {T : Type} (s : Shared T) : sentValues s.settle = [] := by
  simp [Shared.settle, sentValues_append, sentValues_replicate_call,
    sentValues_replicate_check]


theorem accounted_attempt {T : Type} (n : Nat) (sent : List T) (q : List T)
    (p w k : Nat) (ret : List T)
    (hperm : (ret ++ q).Perm sent) (hcount : p + w + (k + 1) + ret.length = n)
    (hwake : q.length ≤ k + 1 ∨ w = 0) :
    Accounted n sent (Shared.attempt (⟨⟨q⟩, p, w, k, ret⟩ : Shared T)) := by
  rcases queue_eq_nil_or_snoc q with h | ⟨xs, v, h⟩
  · subst h
    rw [attempt_nil]
    refine ⟨hperm, ?_, Or.inl (Nat.zero_le k)⟩
    show p + (w + 1) + k + ret.length = n
    omega
  · subst h
    rw [attempt_snoc]
    refine ⟨?_, ?_, ?_⟩
    · show ((v :: ret) ++ xs).Perm sent
      refine List.Perm.trans ?_ hperm
      have h1 : (ret ++ (xs ++ [v])).Perm (v :: (ret ++ xs)) := by
        rw [← List.append_assoc]
        exact List.perm_append_singleton v (ret ++ xs)
      exact h1.symm
    · show p + w + k + (v :: ret).length = n
      simp only [List.length_cons]
      omega
    · rcases hwake with h | h
      · left
        show xs.length ≤ k
        simp at h
        omega
      · exact Or.inr h

theorem accounted_step {T : Type} (n : Nat) (sent : List T) (s : Shared T) (e : Event T)
    (h : Accounted n sent s) : Accounted n (sent ++ sentValues [e]) (s.step e) := by
  obtain ⟨⟨q⟩, p, w, k, ret⟩ := s
  obtain ⟨hperm, hcount, hwake⟩ := h
  have hperm1 : (ret ++ q).Perm sent := hperm
  have hcount1 : p + w + k + ret.length = n := hcount
  have hwake1 : q.length ≤ k ∨ w = 0 := hwake
  cases e with
  | call =>
    have hs : sent ++ sentValues [(Event.call : Event T)] = sent := by simp [sentValues]
    rw [hs]
    by_cases hp : p = 0
    · have : Shared.step (⟨⟨q⟩, p, w, k, ret⟩ : Shared T) Event.call = ⟨⟨q⟩, p, w, k, ret⟩ := by
        simp [Shared.step, hp]
      rw [this]
      exact ⟨hperm1, hcount1, hwake1⟩
    · have : Shared.step (⟨⟨q⟩, p, w, k, ret⟩ : Shared T) Event.call =
          Shared.attempt ⟨⟨q⟩, p - 1, w, k, ret⟩ := by
        simp [Shared.step, hp]
      rw [this]
      rcases queue_eq_nil_or_snoc q with h | ⟨xs, v, h⟩
      · subst h
        rw [attempt_nil]
        refine ⟨hperm1, ?_, Or.inl (Nat.zero_le k)⟩
        show p - 1 + (w + 1) + k + ret.length = n
        omega
      · subst h
        rw [attempt_snoc]
        refine ⟨?_, ?_, ?_⟩
        · show ((v :: ret) ++ xs).Perm sent
          refine List.Perm.trans ?_ hperm1
          have h1 : (ret ++ (xs ++ [v])).Perm (v :: (ret ++ xs)) := by
            rw [← List.append_assoc]
            exact List.perm_append_singleton v (ret ++ xs)
          exact h1.symm
        · show p - 1 + w + k + (v :: ret).length = n
          simp only [List.length_cons]
          omega
        · rcases hwake1 with h | h
          · left
            show xs.length ≤ k
            simp at h
            omega
          · exact Or.inr h
  | send v =>
    have hs : sent ++ sentValues [Event.send v] = sent ++ [v] := by simp [sentValues]
    rw [hs]
    have hp2 : (ret ++ (q ++ [v])).Perm (sent ++ [v]) := by
      rw [← List.append_assoc]
      exact List.Perm.append_right [v] hperm1
    by_cases hw : w = 0
    · have : Shared.step (⟨⟨q⟩, p, w, k, ret⟩ : Shared T) (Event.send v) =
          ⟨⟨q ++ [v]⟩, p, w, k, ret⟩ := by
        simp [Shared.step, hw, MessageQueue.send, push_back]
      rw [this]
      exact ⟨hp2, hcount1, Or.inr hw⟩
    · have : Shared.step (⟨⟨q⟩, p, w, k, ret⟩ : Shared T) (Event.send v) =
          ⟨⟨q ++ [v]⟩, p, w - 1, k + 1, ret⟩ := by
        simp [Shared.step, hw, MessageQueue.send, push_back]
      rw [this]
      refine ⟨hp2, ?_, ?_⟩
      · show p + (w - 1) + (k + 1) + ret.length = n
        omega
      · left
        show (q ++ [v]).length ≤ k + 1
        rcases hwake1 with h | h
        · simp
          omega
        · exact absurd h hw
  | check =>
    have hs : sent ++ sentValues [(Event.check : Event T)] = sent := by simp [sentValues]
    rw [hs]
    by_cases hk : k = 0
    · have : Shared.step (⟨⟨q⟩, p, w, k, ret⟩ : Shared T) Event.check = ⟨⟨q⟩, p, w, k, ret⟩ := by
        simp [Shared.step, hk]
      rw [this]
      exact ⟨hperm1, hcount1, hwake1⟩
    · have : Shared.step (⟨⟨q⟩, p, w, k, ret⟩ : Shared T) Event.check =
          Shared.attempt ⟨⟨q⟩, p, w, k - 1, ret⟩ := by
        simp [Shared.step, hk]
      rw [this]
      apply accounted_attempt n sent q p w (k - 1) ret hperm1
      · omega
      · rcases hwake1 with h | h
        · left
          omega
        · exact Or.inr h
  | spurious =>
    have hs : sent ++ sentValues [(Event.spurious : Event T)] = sent := by simp [sentValues]
    rw [hs]
    by_cases hw : w = 0
    · have : Shared.step (⟨⟨q⟩, p, w, k, ret⟩ : Shared T) Event.spurious =
          ⟨⟨q⟩, p, w, k, ret⟩ := by
        simp [Shared.step, hw]
      rw [this]
      exact ⟨hperm1, hcount1, hwake1⟩
    · have : Shared.step (⟨⟨q⟩, p, w, k, ret⟩ : Shared T) Event.spurious =
          ⟨⟨q⟩, p, w - 1, k + 1, ret⟩ := by
        simp [Shared.step, hw]
      rw [this]
      refine ⟨hperm1, ?_, ?_⟩
      · show p + (w - 1) + (k + 1) + ret.length = n
        omega
      · rcases hwake1 with h | h
        · left
          show q.length ≤ k + 1
          omega
        · exact absurd h hw

theorem accounted_run {T : Type} (n : Nat) (es : List (Event T)) :
    ∀ (sent : List T) (s : Shared T), Accounted n sent s →
      Accounted n (sent ++ sentValues es) (s.run es) := by
  induction es with
  | nil =>
    intro sent s h
    simpa [Shared.run, sentValues] using h
  | cons e es ih =>
    intro sent s h
    have h1 := ih (sent ++ sentValues [e]) (s.step e) (accounted_step n sent s e h)
    have h2 : sentValues (e :: es) = sentValues [e] ++ sentValues es :=
      sentValues_append [e] es
    rw [run_cons, h2, ← List.append_assoc]
    exact h1

theorem accounted_init {T : Type} (n : Nat) : Accounted n ([] : List T) (Shared.init n) := by
  refine ⟨List.Perm.refl _, ?_, Or.inr rfl⟩
  show n + 0 + 0 + 0 = n
  omega


theorem attempt_keeps {T : Type} (s : Shared T) :
    s.attempt.pending = s.pending ∧ s.attempt.woken = s.woken := by
  obtain ⟨⟨q⟩, p, w, k, ret⟩ := s
  rcases queue_eq_nil_or_snoc q with h | ⟨xs, v, h⟩
  · subst h
    rw [attempt_nil]
    exact ⟨rfl, rfl⟩
  · subst h
    rw [attempt_snoc]
    exact ⟨rfl, rfl⟩

theorem run_calls {T : Type} (k : Nat) :
    ∀ s : Shared T, s.pending = k →
      (s.run (List.replicate k Event.call)).pending = 0 ∧
      (s.run (List.replicate k Event.call)).woken = s.woken := by
  induction k with
  | zero =>
    intro s hs
    exact ⟨hs, rfl⟩
  | succ k ih =>
    intro s hs
    have hstep : s.step Event.call = Shared.attempt { s with pending := s.pending - 1 } := by
      simp [Shared.step, hs]
    have hkeep := attempt_keeps ({ s with pending := s.pending - 1 } : Shared T)
    have hp : (s.step Event.call).pending = k := by
      rw [hstep, hkeep.1]
      show s.pending - 1 = k
      omega
    have hw : (s.step Event.call).woken = s.woken := by
      rw [hstep, hkeep.2]
    have h := ih (s.step Event.call) hp
    rw [List.replicate_succ, run_cons]
    exact ⟨h.1, h.2.trans hw⟩

theorem run_checks {T : Type} (k : Nat) :
    ∀ s : Shared T, s.woken = k →
      (s.run (List.replicate k Event.check)).woken = 0 ∧
      (s.run (List.replicate k Event.check)).pending = s.pending := by
  induction k with
  | zero =>
    intro s hs
    exact ⟨hs, rfl⟩
  | succ k ih =>
    intro s hs
    have hstep : s.step Event.check = Shared.attempt { s with woken := s.woken - 1 } := by
      simp [Shared.step, hs]
    have hkeep := attempt_keeps ({ s with woken := s.woken - 1 } : Shared T)
    have hw : (s.step Event.check).woken = k := by
      rw [hstep, hkeep.2]
      show s.woken - 1 = k
      omega
    have hp : (s.step Event.check).pending = s.pending := by
      rw [hstep, hkeep.1]
    have h := ih (s.step Event.check) hw
    rw [List.replicate_succ, run_cons]
    exact ⟨h.1, h.2.trans hp⟩

/-- After the steps of `settle` every caller has called and no woken caller is left. -/
theorem settle_quiet {T : Type} (s : Shared T) :
    (s.run s.settle).pending = 0 ∧ (s.run s.settle).woken = 0 := by
  unfold Shared.settle
  rw [run_append]
  have h1 := run_calls s.pending s rfl
  have h2 := run_checks s.woken (s.run (List.replicate s.pending Event.call)) h1.2
  exact ⟨h2.2.trans h1.1, h2.1⟩

/-- Once every caller has called and no woken caller is left, with no more sends than
callers: the queue is empty, the values returned are the values sent, and the callers
that have not returned are suspended. -/
theorem accounted_quiet {T : Type} (n : Nat) (sent : List T) (s : Shared T)
    (h : Accounted n sent s) (hM : sent.length ≤ n) (hp : s.pending = 0)
    (hk : s.woken = 0) :
    s.queue._queue = [] ∧ s.returned.Perm sent ∧ s.returned.length = sent.length ∧
      s.waiting = n - sent.length := by
  obtain ⟨hperm, hcount, hwake⟩ := h
  have hlen : s.returned.length + s.queue._queue.length = sent.length := by
    have := hperm.length_eq
    simpa using this
  have hq : s.queue._queue.length = 0 := by
    rcases hwake with h | h
    · omega
    · omega
  have hnil : s.queue._queue = [] := List.length_eq_zero.mp hq
  refine ⟨hnil, ?_, by omega, by omega⟩
  rw [hnil, List.append_nil] at hperm
  exact hperm

/-- Without a send, callers on an empty queue do not return. -/
theorem run_without_send {T : Type} (es : List (Event T)) :
    ∀ s : Shared T, sentValues es = [] → s.queue._queue = [] → s.pending = 0 →
      (s.run es).queue._queue = [] ∧ (s.run es).pending = 0 ∧
      (s.run es).returned = s.returned ∧
      (s.run es).waiting + (s.run es).woken = s.waiting + s.woken := by
  induction es with
  | nil =>
    intro s _ hq hp
    exact ⟨hq, hp, rfl, rfl⟩
  | cons e es ih =>
    intro s hsent hq hp
    obtain ⟨⟨q⟩, p, w, k, ret⟩ := s
    have hq1 : q = [] := hq
    have hp1 : p = 0 := hp
    subst hq1
    subst hp1
    rw [run_cons]
    cases e with
    | send v => simp [sentValues] at hsent
    | call =>
      have hrest : sentValues es = [] := by simpa [sentValues] using hsent
      have hstep : Shared.step (⟨⟨[]⟩, 0, w, k, ret⟩ : Shared T) Event.call =
          ⟨⟨[]⟩, 0, w, k, ret⟩ := by
        simp [Shared.step]
      rw [hstep]
      exact ih _ hrest rfl rfl
    | check =>
      have hrest : sentValues es = [] := by simpa [sentValues] using hsent
      by_cases hk : k = 0
      · have hstep : Shared.step (⟨⟨[]⟩, 0, w, k, ret⟩ : Shared T) Event.check =
            ⟨⟨[]⟩, 0, w, k, ret⟩ := by
          simp [Shared.step, hk]
        rw [hstep]
        exact ih _ hrest rfl rfl
      · have hstep : Shared.step (⟨⟨[]⟩, 0, w, k, ret⟩ : Shared T) Event.check =
            ⟨⟨[]⟩, 0, w + 1, k - 1, ret⟩ := by
          simp [Shared.step, hk, Shared.attempt, receive_nil]
        rw [hstep]
        obtain ⟨h1, h2, h3, h4⟩ := ih (⟨⟨[]⟩, 0, w + 1, k - 1, ret⟩ : Shared T) hrest rfl rfl
        refine ⟨h1, h2, h3, ?_⟩
        rw [h4]
        show w + 1 + (k - 1) = w + k
        omega
    | spurious =>
      have hrest : sentValues es = [] := by simpa [sentValues] using hsent
      by_cases hw : w = 0
      · have hstep : Shared.step (⟨⟨[]⟩, 0, w, k, ret⟩ : Shared T) Event.spurious =
            ⟨⟨[]⟩, 0, w, k, ret⟩ := by
          simp [Shared.step, hw]
        rw [hstep]
        exact ih _ hrest rfl rfl
      · have hstep : Shared.step (⟨⟨[]⟩, 0, w, k, ret⟩ : Shared T) Event.spurious =
            ⟨⟨[]⟩, 0, w - 1, k + 1, ret⟩ := by
          simp [Shared.step, hw]
        rw [hstep]
        obtain ⟨h1, h2, h3, h4⟩ := ih (⟨⟨[]⟩, 0, w - 1, k + 1, ret⟩ : Shared T) hrest rfl rfl
        refine ⟨h1, h2, h3, ?_⟩
        rw [h4]
        show w - 1 + (k + 1) = w + k
        omega

/-- C7: `n` callers of `receive` and the sends of any interleaving `es` on an initially
empty queue, with no more sends than callers.  At every point the values returned and the
values queued are together the values sent, each once.  Whenever every caller has called
and no woken caller is left, and in particular once the callers that can run have run,
the queue is empty, the callers that returned are as many as the sends and their values
are the values sent, one each, and the other callers are suspended; they do not return,
whatever wakeups follow, as long as no further send happens. -/
theorem no_lost_wakeups {T : Type} (n : Nat) (es : List (Event T))
    (hM : (sentValues es).length ≤ n) :
    ((((Shared.init n).run es).returned ++
        ((Shared.init n).run es).queue._queue).Perm (sentValues es)) ∧
    (((Shared.init n).run es).pending = 0 → ((Shared.init n).run es).woken = 0 →
      ((Shared.init n).run es).queue._queue = [] ∧
      ((Shared.init n).run es).returned.Perm (sentValues es) ∧
      ((Shared.init n).run es).returned.length = (sentValues es).length ∧
      ((Shared.init n).run es).waiting = n - (sentValues es).length) ∧
    ((((Shared.init n).run es).run ((Shared.init n).run es).settle).pending = 0 ∧
      (((Shared.init n).run es).run ((Shared.init n).run es).settle).woken = 0 ∧
      (((Shared.init n).run es).run ((Shared.init n).run es).settle).queue._queue = [] ∧
      (((Shared.init n).run es).run ((Shared.init n).run es).settle).returned.Perm
        (sentValues es) ∧
      (((Shared.init n).run es).run ((Shared.init n).run es).settle).returned.length =
        (sentValues es).length ∧
      (((Shared.init n).run es).run ((Shared.init n).run es).settle).waiting =
        n - (sentValues es).length) ∧
    ∀ fs : List (Event T), sentValues fs = [] →
      ((((Shared.init n).run es).run ((Shared.init n).run es).settle).run fs).returned =
        (((Shared.init n).run es).run ((Shared.init n).run es).settle).returned ∧
      ((((Shared.init n).run es).run ((Shared.init n).run es).settle).run fs).waiting +
        ((((Shared.init n).run es).run ((Shared.init n).run es).settle).run fs).woken =
        n - (sentValues es).length := by
  have hacc : Accounted n (sentValues es) ((Shared.init n).run es) := by
    have := accounted_run n es [] (Shared.init n) (accounted_init n)
    simpa using this
  have hacc2 : Accounted n (sentValues es)
      (((Shared.init n).run es).run ((Shared.init n).run es).settle) := by
    have := accounted_run n ((Shared.init n).run es).settle (sentValues es)
      ((Shared.init n).run es) hacc
    rw [sentValues_settle, List.append_nil] at this
    exact this
  have hquiet := settle_quiet ((Shared.init n).run es)
  have hfinal := accounted_quiet n (sentValues es) _ hacc2 hM hquiet.1 hquiet.2
  refine ⟨hacc.1, ?_, ⟨hquiet.1, hquiet.2, hfinal⟩, ?_⟩
  · intro hp hk
    exact accounted_quiet n (sentValues es) _ hacc hM hp hk
  · intro fs hfs
    obtain ⟨_, _, hret, hsum⟩ := run_without_send fs
      (((Shared.init n).run es).run ((Shared.init n).run es).settle) hfs hfinal.1 hquiet.1
    refine ⟨hret, ?_⟩
    rw [hsum, hquiet.2, hfinal.2.2.2]
    omega

/-- Witness for C7 with three callers and two sends: two callers are suspended, 7 and 8
are sent, the third caller finds the queue filled and returns 8; once the woken callers
have run, one has returned 7 and the other is suspended again on the empty queue. -/
theorem no_lost_wakeups_witness :
    (sentValues [Event.call, Event.call, Event.send 7, Event.send 8, Event.call]).length ≤ 3 ∧
    (Shared.init 3).run [Event.call, Event.call, Event.send 7, Event.send 8, Event.call] =
      (⟨⟨[7]⟩, 0, 0, 2, [8]⟩ : Shared Nat) ∧
    ((Shared.init 3).run
        [Event.call, Event.call, Event.send 7, Event.send 8, Event.call]).run
        ((Shared.init 3).run
          [Event.call, Event.call, Event.send 7, Event.send 8, Event.call]).settle =
      (⟨⟨[]⟩, 0, 1, 0, [7, 8]⟩ : Shared Nat) ∧
    (((Shared.init 3).run
        [Event.call, Event.call, Event.send 7, Event.send 8, Event.call]).run
        ((Shared.init 3).run
          [Event.call, Event.call, Event.send 7, Event.send 8, Event.call]).settle).waiting =
      3 - (sentValues
        [Event.call, Event.call, Event.send 7, Event.send 8, (Event.call : Event Nat)]).length :=
  ⟨by decide, by decide, by decide,
    (no_lost_wakeups 3 [Event.call, Event.call, Event.send 7, Event.send 8, Event.call]
      (by decide)).2.2.1.2.2.2.2.2⟩

/-- Without the polling hypothesis there is no upper bound: a loop that first polls the
clock after 100000 ms toggles then, with 100000 ms on the stop watch. -/
theorem late_poll_fires_late :
    firings 1 [⟨100000, 100000, 4500⟩] (Updater.start TrafficLight.new 4000 0) =
      [⟨4000, 100000, 100000⟩] := by
  decide

end TrafficSim
